import Mathlib

/-!
Verification of the flux configuration-sync components: the client-side
polling/backoff engine (`backoff`, `awaitJob`), the git Checkout manager
(`Clone`/`CommitAndPush`/`GetNote`/`Clean`/revision queries), and the
versioned daemon-registration handler (`doRegister`).

External effects (git subprocesses, the job tracker, the JSON codec, the
filesystem, the websocket upgrade) are modelled by explicit environment
records whose fields give the outcome of each call, and real time is
modelled by an integer clock (nanoseconds, like Go's `time.Duration`):
each loop iteration of the poller costs `c ≥ 0` clock units (the predicate
call and the clock reads take positive real time in Go) and a sleep of
duration `d` advances the clock by `max d 0` (Go's `time.Sleep` returns
immediately on a non-positive duration).  Loops take a fuel argument for
totality; `none` means the fuel ran out before the code returned.
-/

/-- Errors of the fluxctl polling client.  `timeout` is the package-level
`ErrTimeout = errors.New("timeout")`; the other constructors stand for the
distinct error values that can flow through `awaitJob`'s predicate. -/
inductive CliErr where
  | timeout
  | statusQuery (s : String)
  | jobError (s : String)
  | unknownResultType (t : String)
  deriving DecidableEq

/-- The loop of `backoff` (`part_000` lines 72-87).  Arguments mirror the
Go locals: `factor` and `maxDelay = initialDelay*maxFactor` are fixed,
`finish` is the precomputed deadline, `c` is the clock cost of one
iteration, `now` the current clock, `delay` the current delay, `calls` the
number of predicate invocations so far, `st` the state captured by the
predicate closure.  The result carries the returned error (`none` = nil),
the final closure state, the total invocation count, and the list of
delays passed to `time.Sleep`, in order. -/
def backoffRun {σ : Type} (f : Nat → σ → σ × Bool × Option CliErr)
    (factor maxDelay finish c : Int) :
    Nat → Int → Int → Nat → σ → Option (Option CliErr × σ × Nat × List Int)
  | 0, _, _, _, _ => none
  | fuel + 1, now, delay, calls, st =>
    if now < finish then
      match f calls st with
      | (st1, ok, err) =>
        if ok || err.isSome then
          some (err, st1, calls + 1, [])
        else
          if now + c + delay < finish then
            match backoffRun f factor maxDelay finish c fuel
                (now + c + max delay 0) (min (delay * factor) maxDelay)
                (calls + 1) st1 with
            | none => none
            | some (e, st2, n, tr) => some (e, st2, n, delay :: tr)
          else
            backoffRun f factor maxDelay finish c fuel (now + c)
              (min (delay * factor) maxDelay) (calls + 1) st1
    else
      some (some CliErr.timeout, st, calls, [])

/-- `backoff(initialDelay, factor, maxFactor, timeout, f)` from
`part_000`: computes `maxDelay := initialDelay * maxFactor` and
`finish := now + timeout`, then runs the polling loop starting from delay
`initialDelay` and zero invocations. -/
def backoff {σ : Type} (fuel : Nat) (c now0 : Int)
    (initialDelay factor maxFactor timeout : Int)
    (f : Nat → σ → σ × Bool × Option CliErr) (st : σ) :
    Option (Option CliErr × σ × Nat × List Int) :=
  backoffRun f factor (initialDelay * maxFactor) (now0 + timeout) c fuel
    now0 initialDelay 0 st

/-- C9: with a non-positive timeout the deadline `now0 + timeout` is not
strictly after `now0`, so the very first loop-head check fails: `backoff`
returns `ErrTimeout` having invoked the predicate zero times and slept
never. -/
theorem backoff_nonpositive_timeout_no_attempt {σ : Type} (fuel : Nat)
    (c now0 initialDelay factor maxFactor timeout : Int)
    (f : Nat → σ → σ × Bool × Option CliErr) (st : σ)
    (h : timeout ≤ 0) :
    backoff (fuel + 1) c now0 initialDelay factor maxFactor timeout f st =
      some (some CliErr.timeout, st, 0, []) := by
  have hlt : ¬ now0 < now0 + timeout := by omega
  simp [backoff, backoffRun, hlt]

/-- Witness for C9 at concrete arguments: timeout `-5 ≤ 0`, and the run
returns `ErrTimeout` with zero predicate calls. -/
theorem backoff_nonpositive_timeout_no_attempt_witness :
    ((-5 : Int) ≤ 0) ∧
      backoff 3 1 0 100 2 100 (-5)
          (fun _ (st : Unit) => (st, false, none)) () =
        some (some CliErr.timeout, (), 0, []) :=
  ⟨by decide,
    backoff_nonpositive_timeout_no_attempt 2 1 0 100 2 100 (-5)
      (fun _ st => (st, false, none)) () (by decide)⟩

/-- One loop iteration in which the predicate reports done or returns an
error: the loop returns at once with that error (`none` = nil when done
without error), after this single additional invocation and no sleep. -/
theorem backoffRun_done_step {σ : Type} (f : Nat → σ → σ × Bool × Option CliErr)
    (fa md fi c : Int) (fuel : Nat) (now delay : Int) (calls : Nat)
    (st st1 : σ) (ok : Bool) (err : Option CliErr)
    (hnow : now < fi) (hf : f calls st = (st1, ok, err))
    (hterm : ok = true ∨ err.isSome = true) :
    backoffRun f fa md fi c (fuel + 1) now delay calls st =
      some (err, st1, calls + 1, []) := by
  have hb : (ok || err.isSome) = true := by
    rcases hterm with h | h <;> simp [h]
  simp [backoffRun, hnow, hf, hb]

/-- One loop iteration in which the predicate reports not-done with no
error: the loop continues at the updated clock and delay, and the final
outcome (error, state, call count) is that of the continuation; only the
sleep trace may gain a leading element. -/
theorem backoffRun_continue_step {σ : Type} (f : Nat → σ → σ × Bool × Option CliErr)
    (fa md fi c : Int) (fuel : Nat) (now delay now1 : Int) (calls : Nat)
    (st st1 st2 : σ) (e : Option CliErr) (n : Nat) (tr : List Int)
    (hnow : now < fi) (hf : f calls st = (st1, false, none))
    (hnow1 : now1 = if now + c + delay < fi then now + c + max delay 0 else now + c)
    (hrec : backoffRun f fa md fi c fuel now1 (min (delay * fa) md)
        (calls + 1) st1 = some (e, st2, n, tr)) :
    ∃ tr2, backoffRun f fa md fi c (fuel + 1) now delay calls st =
      some (e, st2, n, tr2) := by
  by_cases hs : now + c + delay < fi
  · rw [if_pos hs] at hnow1
    subst hnow1
    exact ⟨delay :: tr, by simp [backoffRun, hnow, hf, hs, hrec]⟩
  · rw [if_neg hs] at hnow1
    subst hnow1
    exact ⟨tr, by simp [backoffRun, hnow, hf, hs, hrec]⟩

/-- If each iteration costs at least one clock unit and the predicate
never reports done and never errors, then fuel exceeding the remaining
time suffices for the loop to return: it returns `ErrTimeout` (it cannot
hang, because the clock strictly approaches the deadline). -/
theorem backoffRun_timeout_of_never_done {σ : Type}
    (f : Nat → σ → σ × Bool × Option CliErr) (fa md fi c : Int)
    (hc : 1 ≤ c) (hf : ∀ i s, (f i s).2.1 = false ∧ (f i s).2.2 = none) :
    ∀ (fuel : Nat) (now delay : Int) (calls : Nat) (st : σ),
      (fi - now).toNat < fuel →
      ∃ st2 n tr, backoffRun f fa md fi c fuel now delay calls st =
        some (some CliErr.timeout, st2, n, tr) := by
  intro fuel
  induction fuel with
  | zero => intro now delay calls st h; omega
  | succ fuel ih =>
    intro now delay calls st h
    by_cases hnow : now < fi
    · rcases hq : f calls st with ⟨st1, ok, err⟩
      have hok : ok = false := by
        have hh := (hf calls st).1; rw [hq] at hh; exact hh
      have herr : err = none := by
        have hh := (hf calls st).2; rw [hq] at hh; exact hh
      subst hok; subst herr
      by_cases hs : now + c + delay < fi
      · have hmax : 0 ≤ max delay 0 := le_max_right _ _
        obtain ⟨st2, n, tr, hrec⟩ := ih (now + c + max delay 0)
          (min (delay * fa) md) (calls + 1) st1 (by omega)
        exact ⟨st2, n, delay :: tr, by simp [backoffRun, hnow, hq, hs, hrec]⟩
      · obtain ⟨st2, n, tr, hrec⟩ := ih (now + c)
          (min (delay * fa) md) (calls + 1) st1 (by omega)
        exact ⟨st2, n, tr, by simp [backoffRun, hnow, hq, hs, hrec]⟩
    · exact ⟨st, calls, [], by simp [backoffRun, hnow]⟩

/-- A predicate that is not done on its first two calls and done (with nil
error) on its third is invoked exactly three times, whatever the factor
and maxFactor, provided the timeout leaves room for the two iteration
costs and the first sleep; `backoff` then returns nil. -/
theorem backoff_three_calls {σ : Type} (f : Nat → σ → σ × Bool × Option CliErr)
    (c now0 i fa mf t : Int) (st : σ) (fuel : Nat)
    (hc : 0 ≤ c) (hi : 0 ≤ i) (ht : 2 * c + i < t)
    (h0 : ∀ s, (f 0 s).2 = (false, none))
    (h1 : ∀ s, (f 1 s).2 = (false, none))
    (h2 : ∀ s, (f 2 s).2 = (true, none)) :
    ∃ st3 tr, backoff (fuel + 3) c now0 i fa mf t f st =
      some (none, st3, 3, tr) := by
  have hf0 : f 0 st = ((f 0 st).1, false, none) := by
    calc f 0 st = ((f 0 st).1, (f 0 st).2) := rfl
      _ = ((f 0 st).1, false, none) := by rw [h0 st]
  set st1 := (f 0 st).1 with hst1
  have hf1 : f 1 st1 = ((f 1 st1).1, false, none) := by
    calc f 1 st1 = ((f 1 st1).1, (f 1 st1).2) := rfl
      _ = ((f 1 st1).1, false, none) := by rw [h1 st1]
  set st2 := (f 1 st1).1 with hst2
  have hf2 : f 2 st2 = ((f 2 st2).1, true, none) := by
    calc f 2 st2 = ((f 2 st2).1, (f 2 st2).2) := rfl
      _ = ((f 2 st2).1, true, none) := by rw [h2 st2]
  set fi := now0 + t with hfi
  set md := i * mf with hmd
  set d1 := min (i * fa) md with hd1
  set now1 := if now0 + c + i < fi then now0 + c + max i 0 else now0 + c with hnow1
  have h1lt : now1 < fi ∧ now1 ≤ now0 + c + i := by
    rw [hnow1]
    split <;> constructor <;> omega
  set now2 := if now1 + c + d1 < fi then now1 + c + max d1 0 else now1 + c with hnow2
  have h2lt : now2 < fi := by
    rw [hnow2]
    split <;> omega
  have hstep3 : backoffRun f fa md fi c (fuel + 1) now2 (min (d1 * fa) md) 2 st2 =
      some (none, (f 2 st2).1, 3, []) :=
    backoffRun_done_step f fa md fi c fuel now2 (min (d1 * fa) md) 2
      st2 (f 2 st2).1 true none h2lt hf2 (Or.inl rfl)
  obtain ⟨tr2, hstep2⟩ := backoffRun_continue_step f fa md fi c (fuel + 1)
    now1 d1 now2 1 st1 st2 (f 2 st2).1 none 3 [] h1lt.1 hf1 hnow2 hstep3
  obtain ⟨tr1, hstep1⟩ := backoffRun_continue_step f fa md fi c (fuel + 2)
    now0 i now1 0 st st1 (f 2 st2).1 none 3 tr2 (by omega) hf0 hnow1 hstep2
  exact ⟨(f 2 st2).1, tr1, hstep1⟩

/-- C2: the backoff contract.  (1) An invocation reporting done or
erroring makes `backoff` return immediately with that invocation's error
(nil on done without error).  (2) With a positive per-iteration clock cost
and a predicate that never reports done and never errors, the loop always
returns — with `ErrTimeout` — once given fuel beyond the remaining time to
the deadline `now + timeout`; it never hangs.  (3) A predicate first done
(with nil error) on its third call is invoked exactly three times and
`backoff` returns nil, for every factor and maxFactor, when the deadline
has not yet passed (timeout exceeding the two iteration costs plus the
initial delay). -/
theorem backoff_contract :
    (∀ (σ : Type) (f : Nat → σ → σ × Bool × Option CliErr)
        (fa md fi c : Int) (fuel : Nat) (now delay : Int) (calls : Nat)
        (st st1 : σ) (ok : Bool) (err : Option CliErr),
      now < fi → f calls st = (st1, ok, err) →
      (ok = true ∨ err.isSome = true) →
      backoffRun f fa md fi c (fuel + 1) now delay calls st =
        some (err, st1, calls + 1, [])) ∧
    (∀ (σ : Type) (f : Nat → σ → σ × Bool × Option CliErr)
        (fa md c now0 i t : Int) (st : σ) (fuel : Nat),
      1 ≤ c → (∀ j s, (f j s).2.1 = false ∧ (f j s).2.2 = none) →
      (now0 + t - now0).toNat < fuel →
      ∃ st2 n tr, backoff fuel c now0 i fa md t f st =
        some (some CliErr.timeout, st2, n, tr)) ∧
    (∀ (σ : Type) (f : Nat → σ → σ × Bool × Option CliErr)
        (c now0 i fa mf t : Int) (st : σ) (fuel : Nat),
      0 ≤ c → 0 ≤ i → 2 * c + i < t →
      (∀ s, (f 0 s).2 = (false, none)) →
      (∀ s, (f 1 s).2 = (false, none)) →
      (∀ s, (f 2 s).2 = (true, none)) →
      ∃ st3 tr, backoff (fuel + 3) c now0 i fa mf t f st =
        some (none, st3, 3, tr)) :=
  ⟨fun _ f fa md fi c fuel now delay calls st st1 ok err hnow hf hterm =>
      backoffRun_done_step f fa md fi c fuel now delay calls st st1 ok err
        hnow hf hterm,
    fun _ f fa md c now0 i t st fuel hc hf hfuel =>
      backoffRun_timeout_of_never_done f fa (i * md) (now0 + t) c hc hf fuel
        now0 i 0 st hfuel,
    fun _ f c now0 i fa mf t st fuel hc hi ht h0 h1 h2 =>
      backoff_three_calls f c now0 i fa mf t st fuel hc hi ht h0 h1 h2⟩

/-- Witness for C2 at concrete inputs: (1) a predicate erroring on its
first call returns that error after one call; (2) a never-done predicate
with cost 1 and timeout 10 yields `ErrTimeout`; (3) a predicate done on
its third call yields nil after exactly three calls. -/
theorem backoff_contract_witness :
    (backoffRun (fun _ (st : Unit) => (st, false, some (CliErr.jobError "x")))
        2 100 10 1 5 0 100 0 () =
      some (some (CliErr.jobError "x"), (), 1, [])) ∧
    (∃ (st2 : Unit) (n : Nat) (tr : List Int),
      backoff 11 1 0 100 2 100 10
          (fun _ (st : Unit) => (st, false, none)) () =
        some (some CliErr.timeout, st2, n, tr)) ∧
    (∃ (st3 : Unit) (tr : List Int),
      backoff 3 0 0 1 2 100 10
          (fun j (st : Unit) => (st, decide (2 ≤ j), none)) () =
        some (none, st3, 3, tr)) :=
  ⟨backoff_contract.1 Unit _ 2 100 10 1 4 0 100 0 () () false
      (some (CliErr.jobError "x")) (by decide) rfl (Or.inr rfl),
    backoff_contract.2.1 Unit _ 2 100 1 0 100 10 () 11 (by decide)
      (fun _ _ => ⟨rfl, rfl⟩) (by decide),
    backoff_contract.2.2 Unit _ 0 0 1 2 100 10 () 0 (by decide) (by decide)
      (by decide) (fun _ => rfl) (fun _ => rfl) (fun _ => rfl)⟩

/-- The delay recurrence of the loop, as a list: starting from `d`, each
subsequent delay is `min (previous * fa) md` (the for-statement's post
`delay = min(delay*factor, maxDelay)`). -/
def genDelays (fa md : Int) : Int → Nat → List Int
  | _, 0 => []
  | d, n + 1 => d :: genDelays fa md (min (d * fa) md) n

/-- With factor at least 1 and a starting delay in `[0, md]`, every delay
of the recurrence stays in `[d, md]` and the sequence is non-decreasing. -/
theorem genDelays_bounded_mono (fa md : Int) (hfa : 1 ≤ fa) :
    ∀ (n : Nat) (d : Int), 0 ≤ d → d ≤ md →
      (∀ x ∈ genDelays fa md d n, d ≤ x ∧ x ≤ md) ∧
        List.Chain' (· ≤ ·) (genDelays fa md d n) := by
  intro n
  induction n with
  | zero => intro d _ _; exact ⟨by simp [genDelays], by simp [genDelays]⟩
  | succ n ih =>
    intro d hd hdm
    have hdd : d ≤ d * fa := le_mul_of_one_le_right hd hfa
    have hmin : d ≤ min (d * fa) md := le_min hdd hdm
    have hmin0 : 0 ≤ min (d * fa) md := le_trans hd hmin
    have hminmd : min (d * fa) md ≤ md := min_le_right _ _
    obtain ⟨hmem, hchain⟩ := ih (min (d * fa) md) hmin0 hminmd
    constructor
    · intro x hx
      rcases List.mem_cons.mp hx with h | h
      · exact ⟨le_of_eq h.symm, by rw [h]; exact hdm⟩
      · exact ⟨le_trans hmin (hmem x h).1, (hmem x h).2⟩
    · rw [genDelays, List.chain'_cons']
      refine ⟨?_, hchain⟩
      intro b hb
      exact le_trans hmin (hmem b (List.mem_of_mem_head? hb)).1

/-- Once a sleep has been skipped because the current delay no longer fits
before the deadline, no later sleep fits either (the clock only moves
forward and, with factor at least 1, the delay only grows): the remainder
of the run performs no sleep at all. -/
theorem backoffRun_no_sleep_after_unfit {σ : Type}
    (f : Nat → σ → σ × Bool × Option CliErr) (fa md fi c : Int)
    (hc : 0 ≤ c) (hfa : 1 ≤ fa) :
    ∀ (fuel : Nat) (now delay : Int) (calls : Nat) (st : σ)
      (e : Option CliErr) (st2 : σ) (n : Nat) (tr : List Int),
      0 ≤ delay → delay ≤ md → fi ≤ now + delay →
      backoffRun f fa md fi c fuel now delay calls st = some (e, st2, n, tr) →
      tr = [] := by
  intro fuel
  induction fuel with
  | zero =>
    intro now delay calls st e st2 n tr _ _ _ heq
    simp [backoffRun] at heq
  | succ fuel ih =>
    intro now delay calls st e st2 n tr hd hdm hfit heq
    by_cases hnow : now < fi
    · rcases hq : f calls st with ⟨st1, ok, err⟩
      by_cases hb : (ok || err.isSome) = true
      · simp only [backoffRun, if_pos hnow, hq, if_pos hb] at heq
        simp only [Option.some.injEq, Prod.mk.injEq] at heq
        exact heq.2.2.2.symm
      · have hb' : (ok || err.isSome) = false := by
          simpa using hb
        have hs : ¬ now + c + delay < fi := by omega
        simp only [backoffRun, if_pos hnow, hq, hb', if_neg hs,
          Bool.false_eq_true, if_false] at heq
        have hdd : delay ≤ delay * fa := le_mul_of_one_le_right hd hfa
        have hmin : delay ≤ min (delay * fa) md := le_min hdd hdm
        exact ih (now + c) (min (delay * fa) md) (calls + 1) st1 e st2 n tr
          (le_trans hd hmin) (min_le_right _ _) (by omega) heq
    · simp only [backoffRun, if_neg hnow] at heq
      simp only [Option.some.injEq, Prod.mk.injEq] at heq
      exact heq.2.2.2.symm

/-- The sleeps a run actually performs follow the delay recurrence from
its starting delay: the trace equals `genDelays` cut at its own length. -/
theorem backoffRun_trace_genDelays {σ : Type}
    (f : Nat → σ → σ × Bool × Option CliErr) (fa md fi c : Int)
    (hc : 0 ≤ c) (hfa : 1 ≤ fa) :
    ∀ (fuel : Nat) (now delay : Int) (calls : Nat) (st : σ)
      (e : Option CliErr) (st2 : σ) (n : Nat) (tr : List Int),
      0 ≤ delay → delay ≤ md →
      backoffRun f fa md fi c fuel now delay calls st = some (e, st2, n, tr) →
      tr = genDelays fa md delay tr.length := by
  intro fuel
  induction fuel with
  | zero =>
    intro now delay calls st e st2 n tr _ _ heq
    simp [backoffRun] at heq
  | succ fuel ih =>
    intro now delay calls st e st2 n tr hd hdm heq
    by_cases hnow : now < fi
    · rcases hq : f calls st with ⟨st1, ok, err⟩
      by_cases hb : (ok || err.isSome) = true
      · simp only [backoffRun, if_pos hnow, hq, if_pos hb] at heq
        simp only [Option.some.injEq, Prod.mk.injEq] at heq
        rw [← heq.2.2.2]
        rfl
      · have hb' : (ok || err.isSome) = false := by
          simpa using hb
        have hdd : delay ≤ delay * fa := le_mul_of_one_le_right hd hfa
        have hmin : delay ≤ min (delay * fa) md := le_min hdd hdm
        by_cases hs : now + c + delay < fi
        · simp only [backoffRun, if_pos hnow, hq, hb', if_pos hs,
            Bool.false_eq_true, if_false] at heq
          rcases hr : backoffRun f fa md fi c fuel (now + c + max delay 0)
              (min (delay * fa) md) (calls + 1) st1 with _ | ⟨e1, st3, n1, tr1⟩
          · rw [hr] at heq
            simp at heq
          · rw [hr] at heq
            simp only [Option.some.injEq, Prod.mk.injEq] at heq
            have htr1 : tr1 = genDelays fa md (min (delay * fa) md) tr1.length :=
              ih (now + c + max delay 0) (min (delay * fa) md) (calls + 1) st1
                e1 st3 n1 tr1 (le_trans hd hmin) (min_le_right _ _) hr
            rw [← heq.2.2.2, htr1]
            simp [genDelays, ← htr1]
        · simp only [backoffRun, if_pos hnow, hq, hb', if_neg hs,
            Bool.false_eq_true, if_false] at heq
          have htr : tr = [] :=
            backoffRun_no_sleep_after_unfit f fa md fi c hc hfa fuel (now + c)
              (min (delay * fa) md) (calls + 1) st1 e st2 n tr
              (le_trans hd hmin) (min_le_right _ _) (by omega) heq
          rw [htr]
          rfl
    · simp only [backoffRun, if_neg hnow] at heq
      simp only [Option.some.injEq, Prod.mk.injEq] at heq
      rw [← heq.2.2.2]
      rfl

/-- C3 (amended): for a run of `backoff` with integer factor ≥ 1, integer
maxFactor ≥ 1 and initialDelay ≥ 0, the sleeps performed start at
`initialDelay`, each subsequent one is `min (previous * factor,
initialDelay * maxFactor)`, the sequence is non-decreasing, and no sleep
exceeds the cap `initialDelay * maxFactor`. -/
theorem backoff_delay_growth {σ : Type}
    (f : Nat → σ → σ × Bool × Option CliErr) (fuel : Nat)
    (c now0 i fa mf t : Int) (st : σ) (e : Option CliErr) (st2 : σ)
    (n : Nat) (tr : List Int)
    (hi : 0 ≤ i) (hfa : 1 ≤ fa) (hmf : 1 ≤ mf) (hc : 0 ≤ c)
    (heq : backoff fuel c now0 i fa mf t f st = some (e, st2, n, tr)) :
    tr = genDelays fa (i * mf) i tr.length ∧
      List.Chain' (· ≤ ·) tr ∧ ∀ x ∈ tr, i ≤ x ∧ x ≤ i * mf := by
  have himf : i ≤ i * mf := le_mul_of_one_le_right hi hmf
  have htr : tr = genDelays fa (i * mf) i tr.length :=
    backoffRun_trace_genDelays f fa (i * mf) (now0 + t) c hc hfa fuel
      now0 i 0 st e st2 n tr hi himf heq
  obtain ⟨hmem, hchain⟩ :=
    genDelays_bounded_mono fa (i * mf) hfa tr.length i hi himf
  exact ⟨htr, htr ▸ hchain, htr ▸ hmem⟩

/-- Witness for C3 (amended) at concrete inputs: the run with
initialDelay 1, factor 2, maxFactor 3, timeout 10, cost 1 returns with a
trace that follows the recurrence, is non-decreasing and stays at or
below the cap 3. -/
theorem backoff_delay_growth_witness :
    backoff 12 1 0 1 2 3 10 (fun _ (st : Unit) => (st, false, none)) () =
        some (some CliErr.timeout, (), 4, [1, 2, 3]) ∧
      ([1, 2, 3] : List Int) = genDelays 2 (1 * 3) 1 ([1, 2, 3] : List Int).length ∧
      List.Chain' (· ≤ ·) ([1, 2, 3] : List Int) ∧
      ∀ x ∈ ([1, 2, 3] : List Int), (1 : Int) ≤ x ∧ x ≤ 1 * 3 :=
  ⟨by decide,
    (backoff_delay_growth (fun _ (st : Unit) => (st, false, none)) 12 1 0 1 2 3
      10 () (some CliErr.timeout) () 4 [1, 2, 3] (by decide) (by decide)
      (by decide) (by decide) (by decide))⟩

/-- C3 counterexample: the claim as stated fails for maxFactor 0.  With
initialDelay 1, factor 1 (≥ 1), maxFactor 0, the cap `initialDelay *
maxFactor` is 0, yet the run's first sleep is 1, which exceeds the cap,
and the sleep sequence 1, 0, ... is decreasing. -/
theorem backoff_delay_growth_counterexample :
    backoff 20 1 0 1 1 0 10 (fun _ (st : Unit) => (st, false, none)) () =
        some (some CliErr.timeout, (), 9, [1, 0, 0, 0, 0, 0, 0, 0]) ∧
      (1 : Int) ∈ ([1, 0, 0, 0, 0, 0, 0, 0] : List Int) ∧
      ¬ ((1 : Int) ≤ 1 * 0) ∧
      ¬ List.Chain' (· ≤ ·) ([1, 0, 0, 0, 0, 0, 0, 0] : List Int) := by
  refine ⟨by decide, by decide, by decide, ?_⟩
  intro h
  exact absurd (List.chain'_cons.mp h).1 (by decide)

/-- The commit-event metadata the client expects as the result of a
succeeded job (`history.CommitEventMetadata`); opaque here except for the
revision used by the caller. -/
structure CommitEventMetadata where
  Revision : String
  deriving DecidableEq

/-- The dynamic type of the job's opaque `Result` field: either the
expected metadata shape, or a value of some other type (whose type name
`%T` would print). -/
inductive JobResultVal where
  | commitEventMetadata (m : CommitEventMetadata)
  | otherType (tyName : String)
  deriving DecidableEq

/-- What `client.JobStatus` returns for a job: its status string, its
opaque result and its recorded error. -/
structure JobStatusRes where
  StatusString : String
  Result : JobResultVal
  Error : Option CliErr
  deriving DecidableEq

def StatusFailed : String := "failed"

def StatusSucceeded : String := "succeeded"

/-- The closure polled by `awaitJob` (`part_000` lines 43-59): queries the
job status (the tracker's answer to the `i`-th query is `client i`); a
query error is terminal with that error; status "failed" is terminal with
the job's recorded error; status "succeeded" is terminal, storing the
result into the captured variable when it has the expected metadata shape
and failing with an unknown-result-type error otherwise; any other status
continues polling. -/
def awaitJobF (client : Nat → Except CliErr JobStatusRes) (i : Nat)
    (res : CommitEventMetadata) : CommitEventMetadata × Bool × Option CliErr :=
  match client i with
  | .error e => (res, true, some e)
  | .ok j =>
    if j.StatusString = StatusFailed then (res, true, j.Error)
    else if j.StatusString = StatusSucceeded then
      match j.Result with
      | .commitEventMetadata m => (m, true, none)
      | .otherType ty => (res, true, some (CliErr.unknownResultType ty))
    else (res, false, none)

/-- The zero value of the captured result variable. -/
def initialResult : CommitEventMetadata := ⟨""⟩

/-- `awaitJob`: backoff over the job-status predicate with the literal
arguments of the source, `backoff(100*time.Millisecond, 2, 100,
1*time.Minute, ...)`, in nanoseconds. -/
def awaitJob (fuel : Nat) (c now0 : Int)
    (client : Nat → Except CliErr JobStatusRes) :
    Option (Option CliErr × CommitEventMetadata × Nat × List Int) :=
  backoff fuel c now0 100000000 2 100 60000000000 (awaitJobF client)
    initialResult

/-- C4: the terminal-state mapping of `awaitJob`'s polling predicate, and
its composition with `backoff`.  A status-query error is terminal with
that error; "failed" is terminal with the job's recorded error;
"succeeded" with the expected result shape is terminal success carrying
that result; "succeeded" with any other result shape is terminal with an
unknown-result-type error — never a silent success; any other status
continues polling.  Consequently a first poll finding "failed" makes
`awaitJob` return the recorded error after exactly one query. -/
theorem awaitJob_terminal_mapping :
    (∀ (client : Nat → Except CliErr JobStatusRes) (i : Nat)
        (res : CommitEventMetadata) (e : CliErr),
      client i = Except.error e → awaitJobF client i res = (res, true, some e)) ∧
    (∀ (client : Nat → Except CliErr JobStatusRes) (i : Nat)
        (res : CommitEventMetadata) (j : JobStatusRes),
      client i = Except.ok j → j.StatusString = StatusFailed →
      awaitJobF client i res = (res, true, j.Error)) ∧
    (∀ (client : Nat → Except CliErr JobStatusRes) (i : Nat)
        (res : CommitEventMetadata) (j : JobStatusRes) (m : CommitEventMetadata),
      client i = Except.ok j → j.StatusString = StatusSucceeded →
      j.Result = JobResultVal.commitEventMetadata m →
      awaitJobF client i res = (m, true, none)) ∧
    (∀ (client : Nat → Except CliErr JobStatusRes) (i : Nat)
        (res : CommitEventMetadata) (j : JobStatusRes) (ty : String),
      client i = Except.ok j → j.StatusString = StatusSucceeded →
      j.Result = JobResultVal.otherType ty →
      awaitJobF client i res = (res, true, some (CliErr.unknownResultType ty)) ∧
        (some (CliErr.unknownResultType ty) ≠ (none : Option CliErr))) ∧
    (∀ (client : Nat → Except CliErr JobStatusRes) (i : Nat)
        (res : CommitEventMetadata) (j : JobStatusRes),
      client i = Except.ok j → j.StatusString ≠ StatusFailed →
      j.StatusString ≠ StatusSucceeded →
      awaitJobF client i res = (res, false, none)) ∧
    (∀ (client : Nat → Except CliErr JobStatusRes) (fuel : Nat) (c now0 : Int)
        (j : JobStatusRes),
      client 0 = Except.ok j → j.StatusString = StatusFailed →
      awaitJob (fuel + 1) c now0 client =
        some (j.Error, initialResult, 1, [])) := by
  refine ⟨?_, ?_, ?_, ?_, ?_, ?_⟩
  · intro client i res e hc
    simp [awaitJobF, hc]
  · intro client i res j hc hss
    simp [awaitJobF, hc, hss]
  · intro client i res j m hc hss hres
    have hne : StatusSucceeded ≠ StatusFailed := by decide
    simp [awaitJobF, hc, hss, hres, hne]
  · intro client i res j ty hc hss hres
    have hne : StatusSucceeded ≠ StatusFailed := by decide
    exact ⟨by simp [awaitJobF, hc, hss, hres, hne], by simp⟩
  · intro client i res j hc hsf hssu
    simp [awaitJobF, hc, hsf, hssu]
  · intro client fuel c now0 j hc hss
    have hf : awaitJobF client 0 initialResult = (initialResult, true, j.Error) := by
      simp [awaitJobF, hc, hss]
    have hnow : now0 < now0 + 60000000000 := by omega
    exact backoffRun_done_step (awaitJobF client) 2 (100000000 * 100)
      (now0 + 60000000000) c fuel now0 100000000 0 initialResult
      initialResult true j.Error hnow hf (Or.inl rfl)

/-- Witness for C4 at concrete trackers: a query error, a failed job, a
succeeded job with the expected shape, a succeeded job with an unexpected
shape, a still-queued job, and a full `awaitJob` run over a
first-poll-failed tracker. -/
theorem awaitJob_terminal_mapping_witness :
    (awaitJobF (fun _ => Except.error (CliErr.statusQuery "down")) 0 initialResult =
      (initialResult, true, some (CliErr.statusQuery "down"))) ∧
    (awaitJobF (fun _ => Except.ok ⟨"failed", JobResultVal.otherType "T",
        some (CliErr.jobError "boom")⟩) 0 initialResult =
      (initialResult, true, some (CliErr.jobError "boom"))) ∧
    (awaitJobF (fun _ => Except.ok ⟨"succeeded",
        JobResultVal.commitEventMetadata ⟨"deadbeef"⟩, none⟩) 0 initialResult =
      (⟨"deadbeef"⟩, true, none)) ∧
    (awaitJobF (fun _ => Except.ok ⟨"succeeded", JobResultVal.otherType "T",
        none⟩) 0 initialResult =
      (initialResult, true, some (CliErr.unknownResultType "T"))) ∧
    (awaitJobF (fun _ => Except.ok ⟨"queued", JobResultVal.otherType "T",
        none⟩) 0 initialResult = (initialResult, false, none)) ∧
    (awaitJob 5 1 0 (fun _ => Except.ok ⟨"failed", JobResultVal.otherType "T",
        some (CliErr.jobError "boom")⟩) =
      some (some (CliErr.jobError "boom"), initialResult, 1, [])) :=
  ⟨awaitJob_terminal_mapping.1 _ 0 initialResult (CliErr.statusQuery "down") rfl,
    awaitJob_terminal_mapping.2.1 _ 0 initialResult
      ⟨"failed", JobResultVal.otherType "T", some (CliErr.jobError "boom")⟩ rfl rfl,
    awaitJob_terminal_mapping.2.2.1 _ 0 initialResult
      ⟨"succeeded", JobResultVal.commitEventMetadata ⟨"deadbeef"⟩, none⟩
      ⟨"deadbeef"⟩ rfl rfl rfl,
    (awaitJob_terminal_mapping.2.2.2.1 _ 0 initialResult
      ⟨"succeeded", JobResultVal.otherType "T", none⟩ "T" rfl rfl rfl).1,
    awaitJob_terminal_mapping.2.2.2.2.1 _ 0 initialResult
      ⟨"queued", JobResultVal.otherType "T", none⟩ rfl (by decide) (by decide),
    awaitJob_terminal_mapping.2.2.2.2.2 _ 4 1 0
      ⟨"failed", JobResultVal.otherType "T", some (CliErr.jobError "boom")⟩
      rfl rfl⟩

namespace Git

/-- `Repo` (repo.go): descriptor of the remote config repo. -/
structure Repo where
  URL : String
  Branch : String
  Key : String
  Path : String
  deriving DecidableEq

/-- `Config` (repo.go): values used when working in the local copy. -/
structure Config where
  SyncTag : String
  NotesRef : String
  UserName : String
  UserEmail : String
  deriving DecidableEq

/-- `Checkout` (repo.go): a local clone of the remote repo. -/
structure Checkout where
  repo : Repo
  Dir : String
  config : Config
  realNotesRef : String
  deriving DecidableEq

/-- `Note` (note.go): provenance metadata attached to a commit.  The job
id and the update spec are opaque here. -/
structure Note where
  JobID : String
  Spec : String
  deriving DecidableEq

/-- Outcomes of the external git subprocesses (and of the JSON codec)
that the checkout operations invoke.  Each field gives the result of one
kind of invocation as a function of its arguments; `Option String` is the
error outcome (`none` = exit 0), `Except String α` is error-or-output.
The git errors carry only a message: `execGitCmd` builds its error
freshly from the process failure or the first `fatal:` diagnostic line,
so such an error is never the sentinel `ErrNoChanges` value. -/
structure GitEnv where
  diffQuiet : String → String → Option String
  commitRes : String → String → Option String
  marshalNote : Note → Except String String
  headRevOut : String → Except String String
  addNoteRes : String → String → String → String → Option String
  pushRes : String → String → String → List String → Option String
  notesShow : String → String → String → Except String String
  decodeNote : String → Except String Note
  revlistOut : String → String → Except String String

/-- `check` (operations.go): true iff `git diff --quiet -- subdir` exits
nonzero, i.e. there are changes locally under the subdir. -/
def check (env : GitEnv) (workingDir subdir : String) : Bool :=
  (env.diffQuiet workingDir subdir).isSome

/-- The error values `CommitAndPush` can return.  `noChanges` is the
sentinel `ErrNoChanges`; the others wrap the message of the failing step
(`git commit` wrapped with "git commit", push wrapped as `PushError` with
the target URL, the rest returned raw), and are distinct values from the
sentinel by construction, as in Go, where every non-sentinel error is a
freshly allocated error value. -/
inductive GitErr where
  | noChanges
  | commitFailed (msg : String)
  | marshalFailed (msg : String)
  | headRevFailed (msg : String)
  | addNoteFailed (msg : String)
  | pushError (url : String) (msg : String)
  deriving DecidableEq

/-- Which git side effects a `CommitAndPush` call invoked. -/
structure PushEffects where
  committed : Bool
  noteAdded : Bool
  pushed : Bool
  deriving DecidableEq

/-- `Checkout.CommitAndPush` (repo.go lines 152-178): if `check` finds no
diff under the configured subpath, return `ErrNoChanges` at once; else
commit; if a note was given, marshal it, resolve HEAD and attach the
note under the notes ref; finally push branch and notes ref, wrapping a
push failure as `PushError`. -/
def Checkout.CommitAndPush (env : GitEnv) (c : Checkout)
    (commitMessage : String) (note : Option Note) :
    Option GitErr × PushEffects :=
  if check env c.Dir c.repo.Path = false then
    (some GitErr.noChanges, ⟨false, false, false⟩)
  else
    match env.commitRes c.Dir commitMessage with
    | some e => (some (GitErr.commitFailed e), ⟨true, false, false⟩)
    | none =>
      match note with
      | some n =>
        match env.marshalNote n with
        | .error e => (some (GitErr.marshalFailed e), ⟨true, false, false⟩)
        | .ok noteBytes =>
          match env.headRevOut c.Dir with
          | .error e => (some (GitErr.headRevFailed e), ⟨true, false, false⟩)
          | .ok rev =>
            match env.addNoteRes c.Dir rev c.realNotesRef noteBytes with
            | some e => (some (GitErr.addNoteFailed e), ⟨true, true, false⟩)
            | none =>
              match env.pushRes c.repo.Key c.Dir c.repo.URL
                  [c.repo.Branch, c.realNotesRef] with
              | some e => (some (GitErr.pushError c.repo.URL e), ⟨true, true, true⟩)
              | none => (none, ⟨true, true, true⟩)
      | none =>
        match env.pushRes c.repo.Key c.Dir c.repo.URL
            [c.repo.Branch, c.realNotesRef] with
        | some e => (some (GitErr.pushError c.repo.URL e), ⟨true, false, true⟩)
        | none => (none, ⟨true, false, true⟩)

/-- The two ways `getNote` can fail: the `git notes show` invocation
failed (which is what happens when no note is attached to the revision),
or the note body did not decode as the Note JSON shape. -/
inductive NoteErr where
  | showFailed (msg : String)
  | decodeFailed (msg : String)
  deriving DecidableEq

/-- `getNote` (operations.go lines 91-101): run `git notes --ref <ref>
show <rev>`; on failure return that error; else JSON-decode the output
into a Note, returning a decode error on failure. -/
def getNote (env : GitEnv) (workingDir notesRef rev : String) :
    Option Note × Option NoteErr :=
  match env.notesShow workingDir notesRef rev with
  | .error e => (none, some (NoteErr.showFailed e))
  | .ok out =>
    match env.decodeNote out with
    | .error e => (none, some (NoteErr.decodeFailed e))
    | .ok n => (some n, none)

/-- `Checkout.GetNote` (repo.go lines 180-183). -/
def Checkout.GetNote (env : GitEnv) (c : Checkout) (rev : String) :
    Option Note × Option NoteErr :=
  getNote env c.Dir c.realNotesRef rev

/-- Whether path `p` is the directory `dir` itself or lies beneath it
(the tree `os.RemoveAll(dir)` removes). -/
def isUnderDir (dir p : String) : Bool :=
  p = dir || (dir ++ "/").isPrefixOf p

/-- `os.RemoveAll` over a filesystem modelled as the list of existing
paths: drop everything at or under `dir`; any error is ignored by the
caller, so none is modelled. -/
def removeAll (fs : List String) (dir : String) : List String :=
  fs.filter (fun p => !(isUnderDir dir p))

/-- `Checkout.Clean` (repo.go lines 138-143): remove the clone's
directory unless the field is empty. -/
def Checkout.Clean (c : Checkout) (fs : List String) : List String :=
  if c.Dir ≠ "" then removeAll fs c.Dir else fs

/-- The zero value of `Checkout`: all string fields empty. -/
def zeroCheckout : Checkout :=
  ⟨⟨"", "", "", ""⟩, "", ⟨"", "", "", ""⟩, ""⟩

/-- Go's `strings.Split(s, "\n")` on the character list: groups between
newline characters, keeping empty groups; splitting the empty list gives
one empty group. -/
def splitNl : List Char → List (List Char)
  | [] => [[]]
  | ch :: cs =>
    if ch = '\n' then [] :: splitNl cs
    else
      match splitNl cs with
      | [] => [[ch]]
      | g :: gs => (ch :: g) :: gs

/-- `strings.Split(out, "\n")` on strings. -/
def goSplitLines (s : String) : List String :=
  (splitNl s.data).map (fun l => String.mk l)

/-- `revlist` (operations.go lines 112-118): run `git rev-list <ref>` and
split its raw stdout on newlines; an invocation error is returned raw. -/
def revlist (env : GitEnv) (path ref : String) : Except String (List String) :=
  match env.revlistOut path ref with
  | .error e => .error e
  | .ok out => .ok (goSplitLines out)

/-- `Checkout.RevisionsBetween` (repo.go lines 204-206):
`rev-list ref1..ref2`. -/
def Checkout.RevisionsBetween (env : GitEnv) (c : Checkout)
    (ref1 ref2 : String) : Except String (List String) :=
  revlist env c.Dir (ref1 ++ ".." ++ ref2)

/-- `Checkout.RevisionsBefore` (repo.go lines 208-210): `rev-list ref`. -/
def Checkout.RevisionsBefore (env : GitEnv) (c : Checkout) (ref : String) :
    Except String (List String) :=
  revlist env c.Dir ref

/-- The base transport environment of `env` (operations.go lines
155-161): host-key verification and known-hosts recording are disabled in
the ssh command unconditionally. -/
def sshBase : String :=
  "GIT_SSH_COMMAND=ssh -o UserKnownHostsFile=/dev/null -o StrictHostKeyChecking=no"

/-- The escaping of one character under Go's `%q` verb, restricted to the
two classes relevant to path strings (quote and backslash); `%q` is
library behaviour, external to this repo. -/
def goEscapeChar (ch : Char) : List Char :=
  if ch = '"' then ['\\', '"']
  else if ch = '\\' then ['\\', '\\']
  else [ch]

/-- Go's `%q`: the argument wrapped in double quotes with its contents
escaped. -/
def goQuote (s : String) : String :=
  "\"" ++ String.mk (s.data.flatMap goEscapeChar) ++ "\""

/-- `env` (operations.go lines 155-161): with no key path, only the base
ssh command variable; with a key path, `%s -i %q` appended to the base
plus `GIT_TERMINAL_PROMPT=0`. -/
def env (keyPath : String) : List String :=
  if keyPath = "" then [sshBase]
  else [sshBase ++ " -i " ++ goQuote keyPath, "GIT_TERMINAL_PROMPT=0"]

/-- The process that `execGitCmd` (operations.go lines 131-153) spawns:
program "git" with the given arguments, working directory, and the
environment built by `env` from the credential path. -/
structure SpawnedCmd where
  program : String
  args : List String
  dir : String
  envVars : List String
  deriving DecidableEq

/-- The command `execGitCmd dir keyPath args` runs. -/
def execGitCmd (dir keyPath : String) (args : List String) : SpawnedCmd :=
  ⟨"git", args, dir, env keyPath⟩

/-- `pat` occurs as a contiguous substring of `s`. -/
def strContains (s pat : String) : Prop :=
  pat.data <:+: s.data

end Git

namespace Git

/-- C1: `CommitAndPush` returns the sentinel `ErrNoChanges` exactly when
`check` finds no diff under the configured subpath; in that case it
performs no commit, no note attachment and no push; when a diff exists it
always commits, and whenever it returns nil it has pushed. -/
theorem commitAndPush_no_changes_contract (env : GitEnv) (c : Checkout)
    (msg : String) (note : Option Note) :
    ((Checkout.CommitAndPush env c msg note).1 = some GitErr.noChanges ↔
      check env c.Dir c.repo.Path = false) ∧
    (check env c.Dir c.repo.Path = false →
      Checkout.CommitAndPush env c msg note =
        (some GitErr.noChanges, ⟨false, false, false⟩)) ∧
    (check env c.Dir c.repo.Path = true →
      (Checkout.CommitAndPush env c msg note).2.committed = true ∧
      ((Checkout.CommitAndPush env c msg note).1 = none →
        (Checkout.CommitAndPush env c msg note).2.pushed = true)) := by
  cases hd : check env c.Dir c.repo.Path with
  | false =>
    refine ⟨by simp [Checkout.CommitAndPush, hd], fun _ => by
      simp [Checkout.CommitAndPush, hd], fun h => absurd h (by decide)⟩
  | true =>
    rcases hc1 : env.commitRes c.Dir msg with _ | e1
    · rcases note with _ | n
      · rcases hp : env.pushRes c.repo.Key c.Dir c.repo.URL
            [c.repo.Branch, c.realNotesRef] with _ | e5 <;>
          simp [Checkout.CommitAndPush, hd, hc1, hp]
      · rcases hm : env.marshalNote n with e2 | noteBytes
        · simp [Checkout.CommitAndPush, hd, hc1, hm]
        · rcases hh : env.headRevOut c.Dir with e3 | rev
          · simp [Checkout.CommitAndPush, hd, hc1, hm, hh]
          · rcases ha : env.addNoteRes c.Dir rev c.realNotesRef noteBytes with _ | e4
            · rcases hp : env.pushRes c.repo.Key c.Dir c.repo.URL
                  [c.repo.Branch, c.realNotesRef] with _ | e5 <;>
                simp [Checkout.CommitAndPush, hd, hc1, hm, hh, ha, hp]
            · simp [Checkout.CommitAndPush, hd, hc1, hm, hh, ha]
    · simp [Checkout.CommitAndPush, hd, hc1]

/-- A concrete environment reporting no local changes and succeeding at
every git invocation. -/
def cleanEnv : GitEnv :=
  ⟨fun _ _ => none, fun _ _ => none, fun n => Except.ok n.JobID,
    fun _ => Except.ok "deadbeef", fun _ _ _ _ => none, fun _ _ _ _ => none,
    fun _ _ _ => Except.error "no note found", fun _ => Except.error "eof",
    fun _ _ => Except.ok ""⟩

/-- Like `cleanEnv` but with a local diff present. -/
def dirtyEnv : GitEnv :=
  ⟨fun _ _ => some "exit status 1", fun _ _ => none, fun n => Except.ok n.JobID,
    fun _ => Except.ok "deadbeef", fun _ _ _ _ => none, fun _ _ _ _ => none,
    fun _ _ _ => Except.error "no note found", fun _ => Except.error "eof",
    fun _ _ => Except.ok ""⟩

/-- A concrete checkout value. -/
def sampleCheckout : Checkout :=
  ⟨⟨"git@example.com:org/conf", "master", "/k", "deploy"⟩, "/tmp/flux-gitclone1",
    ⟨"flux-sync", "flux", "Flux", "support@weave.works"⟩, "refs/notes/flux"⟩

/-- Witness for C1: on an untouched clone `CommitAndPush` returns exactly
`ErrNoChanges` with no effects; on a dirty clone it commits, and its nil
return implies it pushed. -/
theorem commitAndPush_no_changes_contract_witness :
    (Checkout.CommitAndPush cleanEnv sampleCheckout "m" none =
      (some GitErr.noChanges, ⟨false, false, false⟩)) ∧
    ((Checkout.CommitAndPush dirtyEnv sampleCheckout "m" none).2.committed = true ∧
      ((Checkout.CommitAndPush dirtyEnv sampleCheckout "m" none).1 = none →
        (Checkout.CommitAndPush dirtyEnv sampleCheckout "m" none).2.pushed = true)) :=
  ⟨(commitAndPush_no_changes_contract cleanEnv sampleCheckout "m" none).2.1 rfl,
    (commitAndPush_no_changes_contract dirtyEnv sampleCheckout "m" none).2.2 rfl⟩

end Git

namespace Git

/-- C5: the absence of a note (the `git notes show` invocation failing,
as it does when no note is attached to the revision) surfaces as a
show-command error, the body failing to decode surfaces as a decode
error, and these two outcomes are never the same value — absence is not
conflated with decode failure; a present, well-formed note is returned
with no error. -/
theorem getNote_absent_distinct_from_decode (env : GitEnv) (c : Checkout)
    (rev : String) :
    (∀ e, env.notesShow c.Dir c.realNotesRef rev = Except.error e →
      Checkout.GetNote env c rev = (none, some (NoteErr.showFailed e)) ∧
        ∀ m, NoteErr.showFailed e ≠ NoteErr.decodeFailed m) ∧
    (∀ out e, env.notesShow c.Dir c.realNotesRef rev = Except.ok out →
      env.decodeNote out = Except.error e →
      Checkout.GetNote env c rev = (none, some (NoteErr.decodeFailed e))) ∧
    (∀ out n, env.notesShow c.Dir c.realNotesRef rev = Except.ok out →
      env.decodeNote out = Except.ok n →
      Checkout.GetNote env c rev = (some n, none)) := by
  refine ⟨?_, ?_, ?_⟩
  · intro e hs
    exact ⟨by simp [Checkout.GetNote, getNote, hs], fun m => by simp⟩
  · intro out e hs hdec
    simp [Checkout.GetNote, getNote, hs, hdec]
  · intro out n hs hdec
    simp [Checkout.GetNote, getNote, hs, hdec]

/-- Witness for C5: under `cleanEnv` (whose notes-show fails with "no
note found") absence is a show error; under an environment where the
body is present but malformed, the result is a decode error; the two are
different values. -/
theorem getNote_absent_distinct_from_decode_witness :
    (Checkout.GetNote cleanEnv sampleCheckout "deadbeef" =
      (none, some (NoteErr.showFailed "no note found"))) ∧
    (Checkout.GetNote
        ⟨fun _ _ => none, fun _ _ => none, fun n => Except.ok n.JobID,
          fun _ => Except.ok "deadbeef", fun _ _ _ _ => none,
          fun _ _ _ _ => none, fun _ _ _ => Except.ok "not-json",
          fun _ => Except.error "invalid character", fun _ _ => Except.ok ""⟩
        sampleCheckout "deadbeef" =
      (none, some (NoteErr.decodeFailed "invalid character"))) ∧
    some (NoteErr.showFailed "no note found") ≠
      some (NoteErr.decodeFailed "invalid character") :=
  ⟨((getNote_absent_distinct_from_decode cleanEnv sampleCheckout
      "deadbeef").1 "no note found" rfl).1,
    (getNote_absent_distinct_from_decode _ sampleCheckout
      "deadbeef").2.1 "not-json" "invalid character" rfl rfl,
    by simp⟩

/-- C6: `Clean` is idempotent, never fails (it is a total function on the
modelled filesystem), is a no-op when the directory field is empty — in
particular on the zero-value `Checkout` — and is harmless when the
directory is already gone. -/
theorem clean_idempotent (c : Checkout) (fs : List String) :
    Checkout.Clean c (Checkout.Clean c fs) = Checkout.Clean c fs ∧
      Checkout.Clean zeroCheckout fs = fs ∧
      (c.Dir = "" → Checkout.Clean c fs = fs) := by
  refine ⟨?_, by simp [Checkout.Clean, zeroCheckout], fun h => by
    simp [Checkout.Clean, h]⟩
  by_cases h : c.Dir = ""
  · simp [Checkout.Clean, h]
  · simp [Checkout.Clean, h, removeAll, List.filter_filter, Bool.and_self]

/-- Witness for C6: cleaning a concrete checkout twice over a concrete
filesystem equals cleaning once, and cleaning the zero checkout leaves
the filesystem alone. -/
theorem clean_idempotent_witness :
    (Checkout.Clean sampleCheckout
        (Checkout.Clean sampleCheckout
          ["/tmp/flux-gitclone1", "/tmp/flux-gitclone1/repo", "/etc/hosts"]) =
      Checkout.Clean sampleCheckout
        ["/tmp/flux-gitclone1", "/tmp/flux-gitclone1/repo", "/etc/hosts"]) ∧
    (Checkout.Clean zeroCheckout ["/etc/hosts"] = ["/etc/hosts"]) ∧
    (zeroCheckout.Dir = "" →
      Checkout.Clean zeroCheckout ["/etc/hosts"] = ["/etc/hosts"]) :=
  ⟨(clean_idempotent sampleCheckout
      ["/tmp/flux-gitclone1", "/tmp/flux-gitclone1/repo", "/etc/hosts"]).1,
    (clean_idempotent zeroCheckout ["/etc/hosts"]).2.1,
    fun _ => (clean_idempotent zeroCheckout ["/etc/hosts"]).2.2 rfl⟩

end Git

namespace Git

/-- Splitting never yields the empty list: even empty input gives the
one-element list containing the empty group. -/
theorem splitNl_ne_nil : ∀ l, splitNl l ≠ [] := by
  intro l
  cases l with
  | nil => simp [splitNl]
  | cons ch cs =>
    by_cases h : ch = '\n'
    · simp [splitNl, h]
    · rcases hs : splitNl cs with _ | ⟨g, gs⟩ <;> simp [splitNl, h, hs]

/-- Splitting input that ends in a newline appends one empty group to the
split of the input without it. -/
theorem splitNl_append_newline :
    ∀ l, splitNl (l ++ ['\n']) = splitNl l ++ [[]] := by
  intro l
  induction l with
  | nil => simp [splitNl]
  | cons ch cs ih =>
    by_cases h : ch = '\n'
    · simp [splitNl, h, ih]
    · rcases hs : splitNl cs with _ | ⟨g, gs⟩
      · exact absurd hs (splitNl_ne_nil cs)
      · simp [splitNl, h, ih, hs]

/-- C10: on success `RevisionsBetween` and `RevisionsBefore` return the
raw rev-list output split on the newline character; the returned list is
never empty, and newline-terminated output always yields a final empty
string. -/
theorem revisions_split_contract (env : GitEnv) (c : Checkout)
    (ref1 ref2 : String) :
    (∀ out, env.revlistOut c.Dir (ref1 ++ ".." ++ ref2) = Except.ok out →
      Checkout.RevisionsBetween env c ref1 ref2 =
          Except.ok (goSplitLines out) ∧
        goSplitLines out ≠ []) ∧
    (∀ out, env.revlistOut c.Dir ref1 = Except.ok out →
      Checkout.RevisionsBefore env c ref1 = Except.ok (goSplitLines out) ∧
        goSplitLines out ≠ []) ∧
    (∀ s : String, (goSplitLines (s ++ "\n")).getLast? = some "") := by
  refine ⟨?_, ?_, ?_⟩
  · intro out h
    refine ⟨by simp [Checkout.RevisionsBetween, revlist, h], ?_⟩
    intro hmap
    exact splitNl_ne_nil out.data (by simpa [goSplitLines] using hmap)
  · intro out h
    refine ⟨by simp [Checkout.RevisionsBefore, revlist, h], ?_⟩
    intro hmap
    exact splitNl_ne_nil out.data (by simpa [goSplitLines] using hmap)
  · intro s
    have hd : (s ++ "\n").data = s.data ++ ['\n'] := by
      rw [String.data_append]
    rw [goSplitLines, hd, splitNl_append_newline, List.map_append]
    simp

/-- Witness for C10 at a concrete environment and outputs: a two-commit
newline-terminated listing splits into the two hashes plus a final empty
string, and the empty output splits into the one-element list. -/
theorem revisions_split_contract_witness :
    (Checkout.RevisionsBetween
        ⟨fun _ _ => none, fun _ _ => none, fun n => Except.ok n.JobID,
          fun _ => Except.ok "deadbeef", fun _ _ _ _ => none,
          fun _ _ _ _ => none, fun _ _ _ => Except.error "no note found",
          fun _ => Except.error "eof", fun _ _ => Except.ok "aaaa\nbbbb\n"⟩
        sampleCheckout "r1" "r2" =
      Except.ok ["aaaa", "bbbb", ""]) ∧
    (["aaaa", "bbbb", ""] : List String) ≠ [] ∧
    (goSplitLines ("aaaa\nbbbb" ++ "\n")).getLast? = some "" ∧
    goSplitLines "" = [""] := by
  have h := revisions_split_contract
    ⟨fun _ _ => none, fun _ _ => none, fun n => Except.ok n.JobID,
      fun _ => Except.ok "deadbeef", fun _ _ _ _ => none,
      fun _ _ _ _ => none, fun _ _ _ => Except.error "no note found",
      fun _ => Except.error "eof", fun _ _ => Except.ok "aaaa\nbbbb\n"⟩
    sampleCheckout "r1" "r2"
  refine ⟨?_, by decide, h.2.2 "aaaa\nbbbb", by decide⟩
  have h2 := (h.1 "aaaa\nbbbb\n" rfl).1
  have hsplit : goSplitLines "aaaa\nbbbb\n" = ["aaaa", "bbbb", ""] := by decide
  rw [hsplit] at h2
  exact h2

/-- An occurrence inside `s` is an occurrence inside `s ++ t`. -/
theorem strContains_append_left (s t pat : String)
    (h : strContains s pat) : strContains (s ++ t) pat := by
  obtain ⟨u, v, huv⟩ := h
  exact ⟨u, v ++ t.data, by rw [String.data_append, ← huv]; simp⟩

/-- C8: every spawned git command, with or without a credential, carries
a `GIT_SSH_COMMAND` whose text contains `UserKnownHostsFile=/dev/null`
and `StrictHostKeyChecking=no` — host-key verification is disabled
unconditionally; only the `-i` key-file option and `GIT_TERMINAL_PROMPT=0`
are added, and only when a key path is supplied. -/
theorem execGitCmd_disables_hostkey_checking (dir keyPath : String)
    (args : List String) :
    ∃ sshVar rest, (execGitCmd dir keyPath args).envVars = sshVar :: rest ∧
      strContains sshVar "UserKnownHostsFile=/dev/null" ∧
      strContains sshVar "StrictHostKeyChecking=no" ∧
      (keyPath = "" → (execGitCmd dir keyPath args).envVars = [sshBase]) ∧
      (keyPath ≠ "" → (execGitCmd dir keyPath args).envVars =
        [sshBase ++ " -i " ++ goQuote keyPath, "GIT_TERMINAL_PROMPT=0"]) := by
  have h1 : strContains sshBase "UserKnownHostsFile=/dev/null" :=
    ⟨"GIT_SSH_COMMAND=ssh -o ".data, " -o StrictHostKeyChecking=no".data,
      by decide⟩
  have h2 : strContains sshBase "StrictHostKeyChecking=no" :=
    ⟨"GIT_SSH_COMMAND=ssh -o UserKnownHostsFile=/dev/null -o ".data, [],
      by decide⟩
  by_cases hk : keyPath = ""
  · exact ⟨sshBase, [], by simp [execGitCmd, env, hk], h1, h2,
      fun _ => by simp [execGitCmd, env, hk], fun hne => absurd hk hne⟩
  · exact ⟨sshBase ++ " -i " ++ goQuote keyPath, ["GIT_TERMINAL_PROMPT=0"],
      by simp [execGitCmd, env, hk],
      strContains_append_left _ _ _ (strContains_append_left _ _ _ h1),
      strContains_append_left _ _ _ (strContains_append_left _ _ _ h2),
      fun he => absurd he hk, fun _ => by simp [execGitCmd, env, hk]⟩

/-- Witness for C8 at concrete inputs, one call without and one with a
credential path. -/
theorem execGitCmd_disables_hostkey_checking_witness :
    (∃ sshVar rest,
      (execGitCmd "/tmp/repo" "" ["diff", "--quiet"]).envVars =
          sshVar :: rest ∧
        strContains sshVar "UserKnownHostsFile=/dev/null" ∧
        strContains sshVar "StrictHostKeyChecking=no" ∧
        (("" : String) = "" →
          (execGitCmd "/tmp/repo" "" ["diff", "--quiet"]).envVars = [sshBase]) ∧
        (("" : String) ≠ "" →
          (execGitCmd "/tmp/repo" "" ["diff", "--quiet"]).envVars =
            [sshBase ++ " -i " ++ goQuote "", "GIT_TERMINAL_PROMPT=0"])) ∧
    (∃ sshVar rest,
      (execGitCmd "/tmp/repo" "/etc/key" ["clone"]).envVars = sshVar :: rest ∧
        strContains sshVar "UserKnownHostsFile=/dev/null" ∧
        strContains sshVar "StrictHostKeyChecking=no" ∧
        (("/etc/key" : String) = "" →
          (execGitCmd "/tmp/repo" "/etc/key" ["clone"]).envVars = [sshBase]) ∧
        (("/etc/key" : String) ≠ "" →
          (execGitCmd "/tmp/repo" "/etc/key" ["clone"]).envVars =
            [sshBase ++ " -i " ++ goQuote "/etc/key",
              "GIT_TERMINAL_PROMPT=0"])) :=
  ⟨execGitCmd_disables_hostkey_checking "/tmp/repo" "" ["diff", "--quiet"],
    execGitCmd_disables_hostkey_checking "/tmp/repo" "/etc/key" ["clone"]⟩

end Git

/-- The observable HTTP-side outcome of one registration request:
whether an explicit status was written (with its body), whether
`RegisterDaemon` was invoked, and whether the RPC client was closed. -/
structure RegisterOutcome where
  wroteStatus : Option Nat
  body : Option String
  registerCalled : Bool
  rpcClosed : Bool
  deriving DecidableEq

/-- `HTTPService.doRegister` (server.go lines 426-452): attempt the
websocket upgrade; on failure write 400 Bad Request with the error text
and return — `RegisterDaemon` is never reached and the registry `reg` is
returned unchanged; on success build the version-specific RPC client,
call `RegisterDaemon` (blocking for the connection's lifetime) and close
the client afterwards. -/
def doRegister {W P ρ : Type} (registerDaemon : ρ → String → P → ρ)
    (inst : String) (upgradeRes : Except String W) (newRPCFn : W → P)
    (reg : ρ) : RegisterOutcome × ρ :=
  match upgradeRes with
  | .error e => (⟨some 400, some e, false, false⟩, reg)
  | .ok ws => (⟨none, none, true, true⟩, registerDaemon reg inst (newRPCFn ws))

/-- The protocol-version-specific RPC adapters built over the upgraded
connection (`rpc.NewClientV4/V5/V6`). -/
inductive PlatformRPC (W : Type) where
  | clientV4 (conn : W)
  | clientV5 (conn : W)
  | clientV6 (conn : W)

/-- `HTTPService.RegisterV4` (server.go lines 401-405). -/
def RegisterV4 {W ρ : Type} (registerDaemon : ρ → String → PlatformRPC W → ρ)
    (inst : String) (upgradeRes : Except String W) (reg : ρ) :
    RegisterOutcome × ρ :=
  doRegister registerDaemon inst upgradeRes PlatformRPC.clientV4 reg

/-- `HTTPService.RegisterV5` (server.go lines 407-411). -/
def RegisterV5 {W ρ : Type} (registerDaemon : ρ → String → PlatformRPC W → ρ)
    (inst : String) (upgradeRes : Except String W) (reg : ρ) :
    RegisterOutcome × ρ :=
  doRegister registerDaemon inst upgradeRes PlatformRPC.clientV5 reg

/-- `HTTPService.RegisterV6` (server.go lines 413-417). -/
def RegisterV6 {W ρ : Type} (registerDaemon : ρ → String → PlatformRPC W → ρ)
    (inst : String) (upgradeRes : Except String W) (reg : ρ) :
    RegisterOutcome × ρ :=
  doRegister registerDaemon inst upgradeRes PlatformRPC.clientV6 reg

/-- C7: when the duplex upgrade fails, `doRegister` — and hence
RegisterV4/V5/V6 — writes 400 Bad Request with the error text, never
invokes `RegisterDaemon`, and leaves the registry unchanged; when the
upgrade succeeds, `RegisterDaemon` is invoked with the version-specific
adapter. -/
theorem doRegister_upgrade_failure_no_side_effect :
    (∀ (W P ρ : Type) (registerDaemon : ρ → String → P → ρ) (inst e : String)
        (newRPCFn : W → P) (reg : ρ),
      doRegister registerDaemon inst (Except.error e) newRPCFn reg =
        (⟨some 400, some e, false, false⟩, reg)) ∧
    (∀ (W ρ : Type) (registerDaemon : ρ → String → PlatformRPC W → ρ)
        (inst e : String) (reg : ρ),
      RegisterV4 registerDaemon inst (Except.error e) reg =
          (⟨some 400, some e, false, false⟩, reg) ∧
        RegisterV5 registerDaemon inst (Except.error e) reg =
          (⟨some 400, some e, false, false⟩, reg) ∧
        RegisterV6 registerDaemon inst (Except.error e) reg =
          (⟨some 400, some e, false, false⟩, reg)) ∧
    (∀ (W P ρ : Type) (registerDaemon : ρ → String → P → ρ) (inst : String)
        (ws : W) (newRPCFn : W → P) (reg : ρ),
      doRegister registerDaemon inst (Except.ok ws) newRPCFn reg =
        (⟨none, none, true, true⟩, registerDaemon reg inst (newRPCFn ws))) :=
  ⟨fun _ _ _ _ _ _ _ _ => rfl,
    fun _ _ _ _ _ _ => ⟨rfl, rfl, rfl⟩,
    fun _ _ _ _ _ _ _ _ => rfl⟩
